import Mathlib

/-!
Shallow embedding of the hierarchical document-analysis system
(`ResumeAnalyzer.py`, `movieReviewandRecommendation.py`).

Python strings are modelled at the `List Char` level (ASCII behaviour of
`str.split`, `str.strip`, `str.lower`, `str.title`, substring tests).
Python floats produced by the score parser are modelled as exact rationals
(`ℚ`); every value the parser produces is a finite decimal, so clamping,
comparison and re-parsing behave identically to the source.
The text-generation oracle is modelled as a record of fallible functions
(`Except Unit`), and Python exception propagation inside `forward` as the
usual error short-circuiting; the trace of oracle calls issued is returned
alongside the result so that call-count properties can be stated.
-/

set_option autoImplicit false

/-! ### Python-style character-list utilities -/

/-- Python `s.split(sep)` for a one-character separator: keeps empty pieces. -/
def pySplit (sep : Char) : List Char → List (List Char)
  | [] => [[]]
  | c :: rest =>
    match pySplit sep rest with
    | [] => if c = sep then [[], []] else [[c]]
    | w :: ws => if c = sep then [] :: w :: ws else (c :: w) :: ws

/-- Python `s.strip()`: remove leading and trailing whitespace. -/
def pyStrip (s : List Char) : List Char :=
  ((s.dropWhile Char.isWhitespace).reverse.dropWhile Char.isWhitespace).reverse

/-- Python `s.split()` with no argument: split on whitespace runs, drop empties.
The accumulator holds the current word reversed. -/
def pyWordsAux : List Char → List Char → List (List Char)
  | [], acc => if acc.isEmpty then [] else [acc.reverse]
  | c :: rest, acc =>
    if c.isWhitespace then
      if acc.isEmpty then pyWordsAux rest [] else acc.reverse :: pyWordsAux rest []
    else pyWordsAux rest (c :: acc)

/-- Python `needle in hay` on strings: substring occurrence test. -/
def hasSubstr (needle : List Char) : List Char → Bool
  | [] => needle.isEmpty
  | c :: rest => needle.isPrefixOf (c :: rest) || hasSubstr needle rest

/-- Python `s.title()` (ASCII): uppercase a letter after a non-letter,
lowercase a letter after a letter. The flag records whether the previous
character was a letter. -/
def pyTitleAux : Bool → List Char → List Char
  | _, [] => []
  | prevAlpha, c :: rest =>
    (if c.isAlpha then (if prevAlpha then c.toLower else c.toUpper) else c)
      :: pyTitleAux c.isAlpha rest

/-- Python `s.title()` (ASCII). -/
def pyTitle (s : List Char) : List Char := pyTitleAux false s

/-! ### Decimal numerals -/

/-- Numeric value of an ASCII digit character. -/
def digitVal (c : Char) : Nat := c.toNat - 48

/-- Value of a digit string read left to right. -/
def digitsVal (l : List Char) : Nat :=
  l.foldl (fun acc c => 10 * acc + digitVal c) 0

/-- The ASCII digit character for a value below ten. -/
def decDigit : Nat → Char
  | 0 => '0' | 1 => '1' | 2 => '2' | 3 => '3' | 4 => '4'
  | 5 => '5' | 6 => '6' | 7 => '7' | 8 => '8' | _ => '9'

/-- Decimal digits of `n`, most significant first; fuel-bounded recursion
(the fuel only bounds the digit count, `n` itself is always enough). -/
def natToDecAux : Nat → Nat → List Char
  | 0, _ => []
  | fuel + 1, n => if n = 0 then [] else natToDecAux fuel (n / 10) ++ [decDigit (n % 10)]

/-- Decimal digit string of a natural number. -/
def natToDec (n : Nat) : List Char :=
  if n = 0 then ['0'] else natToDecAux n n

/-- Left-pad a digit string with zeros up to length `k`. -/
def padZeros (k : Nat) (l : List Char) : List Char :=
  List.replicate (k - l.length) '0' ++ l

/-- The longest match of the regex `\d+\.?\d*` starting at the head of `s`
(the head is assumed to be a digit): a maximal digit run, then optionally a
dot and a second maximal digit run. -/
def matchNumeral (s : List Char) : List Char :=
  match s.dropWhile Char.isDigit with
  | '.' :: r2 => s.takeWhile Char.isDigit ++ '.' :: r2.takeWhile Char.isDigit
  | _ => s.takeWhile Char.isDigit

/-- Python `re.search` for `(\d+\.?\d*)`: the leftmost-longest numeric substring. -/
def firstNumeral : List Char → Option (List Char)
  | [] => none
  | c :: rest => if c.isDigit then some (matchNumeral (c :: rest)) else firstNumeral rest

/-- Python `float(m)` of a matched numeral `digits[.digits]`, as an exact
rational: the value `intPart.fracPart` is `(intPart * 10 ^ l + fracPart) / 10 ^ l`
with `l` the number of fractional digits (so a plain integer has `l = 0`). -/
def numToRat (m : List Char) : ℚ :=
  match m.dropWhile Char.isDigit with
  | '.' :: fp =>
    mkRat (digitsVal (m.takeWhile Char.isDigit) * 10 ^ fp.length + digitsVal fp)
      (10 ^ fp.length)
  | _ => (digitsVal (m.takeWhile Char.isDigit) : ℚ)

/-- Python `str(v)` for a nonnegative finite-decimal rational: digits, a dot,
then `q.den` fractional digits (always at least one, as Python prints floats
with a fractional part). `q.num.toNat * (10 ^ q.den / q.den)` is exactly
`q * 10 ^ q.den` whenever `q ≥ 0` and `q.den` divides `10 ^ q.den`, which
holds for every finite-decimal rational. For the values produced by the
score parsers this prints a decimal string whose parsed value is exactly `q`. -/
def floatStr (q : ℚ) : String :=
  let k := q.den
  let a := q.num.toNat * (10 ^ k / q.den)
  let ds := padZeros (k + 1) (natToDec a)
  String.mk (ds.take (ds.length - k) ++ '.' :: ds.drop (ds.length - k))

/-! ### Response normalization (the private helpers of the two modules) -/

/-- Source `ResumeAnalyzer._parse_score`:
`min(10, max(1, float(match.group(1))) if match else 5.0)`. -/
def ResumeAnalyzer.parse_score (score_str : String) : ℚ :=
  min 10
    (match firstNumeral score_str.data with
     | some m => max 1 (numToRat m)
     | none => 5)

/-- Source `AdvancedMovieReviewer._parse_rating`:
`min(10, max(0, float(match.group(1))) if match else 5.0)`. -/
def AdvancedMovieReviewer.parse_rating (rating_str : String) : ℚ :=
  min 10
    (match firstNumeral rating_str.data with
     | some m => max 0 (numToRat m)
     | none => 5)

/-- Source `ResumeAnalyzer._format_list`:
`[f"- {item.strip()}" for item in items.split(";") if item.strip()]`. -/
def ResumeAnalyzer.format_list (items : String) : List String :=
  (pySplit ';' items.data).filterMap fun item =>
    let t := pyStrip item
    if t = [] then none else some ("- " ++ String.mk t)

/-- Source `AdvancedMovieReviewer._format_list`: same shape with a comma delimiter. -/
def AdvancedMovieReviewer.format_list (items : String) : List String :=
  (pySplit ',' items.data).filterMap fun item =>
    let t := pyStrip item
    if t = [] then none else some ("- " ++ String.mk t)

/-- Source `AdvancedMovieReviewer._format_genres`:
`[g.strip().title() for g in genres.split(",") if g.strip()]`. -/
def AdvancedMovieReviewer.format_genres (genres : String) : List String :=
  (pySplit ',' genres.data).filterMap fun g =>
    let t := pyStrip g
    if t = [] then none else some (String.mk (pyTitle t))

/-- Source `AdvancedMovieReviewer._rate_quality`: lowercase the text, then test the
four keywords in the fixed source order, defaulting to the three-star band. -/
def AdvancedMovieReviewer.rate_quality (text : String) : String :=
  let t := text.data.map Char.toLower
  if hasSubstr ("excellent").data t then "★★★★★"
  else if hasSubstr ("good").data t then "★★★★☆"
  else if hasSubstr ("average").data t then "★★★☆☆"
  else if hasSubstr ("poor").data t then "★★☆☆☆"
  else "★★★☆☆"

/-- The comprehension `[s.strip() for s in sections.split(",") if s.strip()]` from
`ResumeAnalyzer.forward`. -/
def splitSections (secs : String) : List String :=
  (pySplit ',' secs.data).filterMap fun s =>
    let t := pyStrip s
    if t = [] then none else some (String.mk t)

/-! ### The oracle boundary and the two orchestrators -/

/-- Raw output fields of the per-section `content_evaluator` call. -/
structure SectionEvalRaw where
  analysis : String
  score : String
deriving DecidableEq

/-- Raw output fields of the `overall_assessor` call. -/
structure OverallRaw where
  summary : String
  strengths : String
  weaknesses : String
  recommendations : String
deriving DecidableEq

/-- The three oracle entry points used by `ResumeAnalyzer`; each call may
fail (Python exception), modelled as `Except Unit`. -/
structure Oracle where
  sections : String → Except Unit String
  evalSection : String → String → Except Unit SectionEvalRaw
  overall : String → Except Unit OverallRaw

/-- One issued oracle call of the resume flow, by pipeline stage. -/
inductive OracleCall where
  | stage1 : OracleCall
  | stage2 : String → OracleCall
  | stage3 : OracleCall
deriving DecidableEq

/-- A parsed per-section evaluation as stored in `section_analyses`. -/
structure SectionAnalysis where
  analysis : String
  score : ℚ
deriving DecidableEq

/-- A value of the heterogeneous result dictionary returned by `forward`. -/
inductive RVal where
  | vstr : String → RVal
  | vlist : List String → RVal
  | vanalyses : List (String × SectionAnalysis) → RVal
  | vnum : ℚ → RVal
  | vtech : List (String × String) → RVal
deriving DecidableEq

/-- Python dict assignment `d[k] = v`: replace in place if the key exists,
else append. -/
def dictInsert {α : Type} (k : String) (v : α) : List (String × α) → List (String × α)
  | [] => [(k, v)]
  | (k2, v2) :: rest => if k2 = k then (k, v) :: rest else (k2, v2) :: dictInsert k v rest

/-- The per-unit loop of `ResumeAnalyzer.forward`: evaluate each section in
order, accumulating the `section_analyses` dict; the first raised exception
short-circuits (it propagates to the `except` clause of `forward`). Also
returns the trace of stage-2 calls issued. -/
def evalUnits (o : Oracle) (text : String) :
    List String → List (String × SectionAnalysis) →
    Except Unit (List (String × SectionAnalysis)) × List OracleCall
  | [], acc => (.ok acc, [])
  | s :: rest, acc =>
    match o.evalSection s text with
    | .error e => (.error e, [.stage2 s])
    | .ok r =>
      let res := evalUnits o text rest
        (dictInsert s { analysis := r.analysis, score := ResumeAnalyzer.parse_score r.score } acc)
      (res.1, .stage2 s :: res.2)

/-- Source `ResumeAnalyzer.forward`: the whole body runs in one `try`; any raised
exception makes it return the empty dict `{}` (here `[]`). The second
component is the trace of oracle calls issued. -/
def ResumeAnalyzer.forward (o : Oracle) (resume_text : String) :
    List (String × RVal) × List OracleCall :=
  match o.sections resume_text with
  | .error _ => ([], [.stage1])
  | .ok secs =>
    let section_list := splitSections secs
    let r2 := evalUnits o resume_text section_list []
    match r2.1 with
    | .error _ => ([], .stage1 :: r2.2)
    | .ok analyses =>
      match o.overall resume_text with
      | .error _ => ([], .stage1 :: r2.2 ++ [.stage3])
      | .ok ov =>
        ([("sections", .vlist section_list),
          ("section_analyses", .vanalyses analyses),
          ("overall_summary", .vstr ov.summary),
          ("strengths", .vlist (ResumeAnalyzer.format_list ov.strengths)),
          ("weaknesses", .vlist (ResumeAnalyzer.format_list ov.weaknesses)),
          ("recommendations", .vlist (ResumeAnalyzer.format_list ov.recommendations))],
         .stage1 :: r2.2 ++ [.stage3])

/-- The analyze-button flow of `ResumeAnalyzer.main`: a document of fewer
than 50 words is rejected with a warning before the analyzer is constructed
(so before any oracle call); otherwise `forward` runs. -/
def ResumeAnalyzer.mainRun (o : Oracle) (resume_text : String) :
    Option (List (String × RVal)) × List OracleCall :=
  if (pyWordsAux resume_text.data []).length < 50 then (none, [])
  else
    let r := ResumeAnalyzer.forward o resume_text
    (some r.1, r.2)

/-- Raw output fields of the movie `analysis` call. -/
structure MovieAnalysisRaw where
  plot_summary : String
  character_analysis : String
  directing_quality : String
  cinematography : String
  technical_aspects : String
  cultural_impact : String
  rating : String
deriving DecidableEq

/-- Raw output fields of the movie `recommender` call. -/
structure RecommendRaw where
  similar_movies : String
  recommendations : String
deriving DecidableEq

/-- The three oracle entry points used by `AdvancedMovieReviewer`. -/
structure MovieOracle where
  analysis : String → Except Unit MovieAnalysisRaw
  genre_classifier : String → Except Unit String
  recommender : String → Except Unit RecommendRaw

/-- Source `AdvancedMovieReviewer.forward`: three sequential oracle calls inside one
`try`; any raised exception yields the empty dict. -/
def AdvancedMovieReviewer.forward (o : MovieOracle) (review : String) :
    List (String × RVal) :=
  match o.analysis review with
  | .error _ => []
  | .ok a =>
    match o.genre_classifier review with
    | .error _ => []
    | .ok g =>
      match o.recommender review with
      | .error _ => []
      | .ok comps =>
        [("plot_summary", .vstr a.plot_summary),
         ("character_analysis", .vstr a.character_analysis),
         ("technical_review", .vtech
           [("directing", AdvancedMovieReviewer.rate_quality a.directing_quality),
            ("cinematography", AdvancedMovieReviewer.rate_quality a.cinematography),
            ("technical_aspects", AdvancedMovieReviewer.rate_quality a.technical_aspects)]),
         ("cultural_impact", .vstr a.cultural_impact),
         ("rating", .vnum (AdvancedMovieReviewer.parse_rating a.rating)),
         ("genres", .vlist (AdvancedMovieReviewer.format_genres g)),
         ("similar_movies", .vlist (AdvancedMovieReviewer.format_list comps.similar_movies)),
         ("recommendations", .vlist (AdvancedMovieReviewer.format_list comps.recommendations))]

/-! ### Lemmas: score extraction -/

lemma firstNumeral_eq_none {s : List Char} (h : ∀ c ∈ s, c.isDigit = false) :
    firstNumeral s = none := by
  induction s with
  | nil => rfl
  | cons c rest ih =>
    have hc : c.isDigit = false := h c (List.mem_cons_self c rest)
    simp only [firstNumeral, hc, Bool.false_eq_true, if_false]
    exact ih fun x hx => h x (List.mem_cons_of_mem c hx)

lemma parse_score_ge_one (s : String) : 1 ≤ ResumeAnalyzer.parse_score s := by
  unfold ResumeAnalyzer.parse_score
  cases h : firstNumeral s.data with
  | none => norm_num
  | some m => exact le_min (by norm_num) (le_max_left 1 _)

lemma parse_score_le_ten (s : String) : ResumeAnalyzer.parse_score s ≤ 10 := by
  unfold ResumeAnalyzer.parse_score
  exact min_le_left _ _

lemma parse_rating_nonneg (s : String) : 0 ≤ AdvancedMovieReviewer.parse_rating s := by
  unfold AdvancedMovieReviewer.parse_rating
  cases h : firstNumeral s.data with
  | none => norm_num
  | some m => exact le_min (by norm_num) (le_max_left 0 _)

lemma parse_rating_le_ten (s : String) : AdvancedMovieReviewer.parse_rating s ≤ 10 := by
  unfold AdvancedMovieReviewer.parse_rating
  exact min_le_left _ _

lemma parse_score_of_no_digit {s : String} (h : ∀ c ∈ s.data, c.isDigit = false) :
    ResumeAnalyzer.parse_score s = 5 := by
  unfold ResumeAnalyzer.parse_score
  rw [firstNumeral_eq_none h]
  norm_num

lemma parse_rating_of_no_digit {s : String} (h : ∀ c ∈ s.data, c.isDigit = false) :
    AdvancedMovieReviewer.parse_rating s = 5 := by
  unfold AdvancedMovieReviewer.parse_rating
  rw [firstNumeral_eq_none h]
  norm_num

/-- Claim C3: for every input text, `extractScore` (the code's
`_parse_score`, bounds 1 to 10, and `_parse_rating`, bounds 0 to 10)
returns a value within those bounds; when the text contains no digits it
returns the sentinel `5.0`; and when the text contains several numeric
substrings it uses the first one (here: `"7 out of 10"` parses to `7`,
not `10`, and `"0.5 or 9"` parses to `0.5`). -/
theorem parse_score_bounds :
    (∀ s : String,
      1 ≤ ResumeAnalyzer.parse_score s ∧ ResumeAnalyzer.parse_score s ≤ 10 ∧
      0 ≤ AdvancedMovieReviewer.parse_rating s ∧ AdvancedMovieReviewer.parse_rating s ≤ 10) ∧
    (∀ s : String, (∀ c ∈ s.data, c.isDigit = false) →
      ResumeAnalyzer.parse_score s = 5 ∧ AdvancedMovieReviewer.parse_rating s = 5) ∧
    ResumeAnalyzer.parse_score ("7 out of 10") = 7 ∧
    AdvancedMovieReviewer.parse_rating ("0.5 or 9") = mkRat 1 2 := by
  refine ⟨fun s => ⟨parse_score_ge_one s, parse_score_le_ten s,
      parse_rating_nonneg s, parse_rating_le_ten s⟩,
    fun s h => ⟨parse_score_of_no_digit h, parse_rating_of_no_digit h⟩,
    by decide, by decide⟩

/-- Witness for C3 at concrete inputs: `"no score given"` has no digit and
both parsers return the sentinel `5.0` on it. -/
theorem parse_score_bounds_witness :
    ResumeAnalyzer.parse_score ("no score given") = 5 ∧
    AdvancedMovieReviewer.parse_rating ("no score given") = 5 :=
  parse_score_bounds.2.1 ("no score given") (by decide)

/-! ### Claims about list extraction and the star-rating bands -/

/-- Counterexample to claim C4 as stated: `extractList` (the code's
`_format_list`) applied to `"a; b ;;c"` does NOT return `["a","b","c"]`;
every kept piece is prefixed with a bullet `"- "`. -/
theorem format_list_bullet_cex :
    ResumeAnalyzer.format_list ("a; b ;;c") ≠ ["a", "b", "c"] ∧
    ResumeAnalyzer.format_list ("a; b ;;c") = ["- a", "- b", "- c"] := by
  decide

/-- Claim C4 (amended): `_format_list` splits on the delimiter, trims each
piece, drops empty pieces, preserves order, does not de-duplicate, and
prefixes each kept piece with `"- "`; so `"a; b ;;c"` yields
`["- a","- b","- c"]`, the empty string yields `[]`, and a repeated item is
kept twice (no de-duplication). -/
theorem format_list_split_trim_drop :
    ResumeAnalyzer.format_list ("a; b ;;c") = ["- a", "- b", "- c"] ∧
    ResumeAnalyzer.format_list ("") = [] ∧
    ResumeAnalyzer.format_list ("x; y; x") = ["- x", "- y", "- x"] ∧
    AdvancedMovieReviewer.format_list ("a, b ,,c") = ["- a", "- b", "- c"] ∧
    AdvancedMovieReviewer.format_list ("") = [] := by
  decide

/-- Claim C5: `mapQualityToStars` (the code's `_rate_quality`) performs a
case-insensitive substring match against the keyword bands in the fixed
order excellent, good, average, poor; the first band whose keyword occurs
wins and the average band is the default; in particular the text
`"This was an excellent and good performance"`, which contains both the
excellent and the good keyword, resolves to the excellent band. -/
theorem rate_quality_first_match :
    (∀ s : String,
      let t := s.data.map Char.toLower
      (hasSubstr ("excellent").data t = true →
        AdvancedMovieReviewer.rate_quality s = "★★★★★") ∧
      (hasSubstr ("excellent").data t = false → hasSubstr ("good").data t = true →
        AdvancedMovieReviewer.rate_quality s = "★★★★☆") ∧
      (hasSubstr ("excellent").data t = false → hasSubstr ("good").data t = false →
        hasSubstr ("average").data t = true →
        AdvancedMovieReviewer.rate_quality s = "★★★☆☆") ∧
      (hasSubstr ("excellent").data t = false → hasSubstr ("good").data t = false →
        hasSubstr ("average").data t = false → hasSubstr ("poor").data t = true →
        AdvancedMovieReviewer.rate_quality s = "★★☆☆☆") ∧
      (hasSubstr ("excellent").data t = false → hasSubstr ("good").data t = false →
        hasSubstr ("average").data t = false → hasSubstr ("poor").data t = false →
        AdvancedMovieReviewer.rate_quality s = "★★★☆☆")) ∧
    AdvancedMovieReviewer.rate_quality ("This was an excellent and good performance") =
      "★★★★★" := by
  refine ⟨fun s => ⟨fun h1 => ?_, fun h1 h2 => ?_, fun h1 h2 h3 => ?_,
    fun h1 h2 h3 h4 => ?_, fun h1 h2 h3 h4 => ?_⟩, by decide⟩ <;>
  · unfold AdvancedMovieReviewer.rate_quality
    simp_all

/-- Witness for C5: `"just good"` contains no `excellent` keyword but does
contain `good`, and resolves to the four-star band. -/
theorem rate_quality_first_match_witness :
    AdvancedMovieReviewer.rate_quality ("just good") = "★★★★☆" :=
  (rate_quality_first_match.1 ("just good")).2.1 (by decide) (by decide)

/-- Claim C10: `_rate_quality` returns one of exactly four star strings for
every input, and the default band (no keyword occurs) is the identical
string to the band of the `average` keyword, so an unrecognized text is
indistinguishable from one rated average. -/
theorem rate_quality_four_bands_default_average :
    (∀ s : String,
      AdvancedMovieReviewer.rate_quality s = "★★★★★" ∨
      AdvancedMovieReviewer.rate_quality s = "★★★★☆" ∨
      AdvancedMovieReviewer.rate_quality s = "★★★☆☆" ∨
      AdvancedMovieReviewer.rate_quality s = "★★☆☆☆") ∧
    (∀ s : String,
      hasSubstr ("excellent").data (s.data.map Char.toLower) = false →
      hasSubstr ("good").data (s.data.map Char.toLower) = false →
      hasSubstr ("average").data (s.data.map Char.toLower) = false →
      hasSubstr ("poor").data (s.data.map Char.toLower) = false →
      AdvancedMovieReviewer.rate_quality s =
        AdvancedMovieReviewer.rate_quality ("average")) ∧
    AdvancedMovieReviewer.rate_quality ("average") = "★★★☆☆" := by
  refine ⟨fun s => ?_, fun s h1 h2 h3 h4 => ?_, by decide⟩
  · unfold AdvancedMovieReviewer.rate_quality
    dsimp only
    split
    · exact Or.inl rfl
    split
    · exact Or.inr (Or.inl rfl)
    split
    · exact Or.inr (Or.inr (Or.inl rfl))
    split
    · exact Or.inr (Or.inr (Or.inr rfl))
    · exact Or.inr (Or.inr (Or.inl rfl))
  · unfold AdvancedMovieReviewer.rate_quality
    simp_all
    decide

/-- Witness for C10: the keyword-free text `"mediocre at best"` rates
identically to `"average"`. -/
theorem rate_quality_four_bands_default_average_witness :
    AdvancedMovieReviewer.rate_quality ("mediocre at best") =
      AdvancedMovieReviewer.rate_quality ("average") :=
  rate_quality_four_bands_default_average.2.1 ("mediocre at best")
    (by decide) (by decide) (by decide) (by decide)

/-! ### Lemmas and claims about the orchestrator -/

lemma evalUnits_ok_iff (o : Oracle) (t : String) :
    ∀ (l : List String) (acc : List (String × SectionAnalysis)),
      (∃ m, (evalUnits o t l acc).1 = .ok m) ↔
        ∀ s ∈ l, ∃ r, o.evalSection s t = .ok r := by
  intro l
  induction l with
  | nil =>
    intro acc
    simp [evalUnits]
  | cons s rest ih =>
    intro acc
    cases h : o.evalSection s t with
    | error e =>
      simp only [evalUnits, h]
      constructor
      · rintro ⟨m, hm⟩
        simp at hm
      · intro hall
        obtain ⟨r, hr⟩ := hall s (List.mem_cons_self s rest)
        rw [h] at hr
        cases hr
    | ok r =>
      simp only [evalUnits, h]
      constructor
      · rintro ⟨m, hm⟩ s2 hs2
        rcases List.mem_cons.mp hs2 with rfl | hmem
        · exact ⟨r, h⟩
        · exact ((ih _).mp ⟨m, hm⟩) s2 hmem
      · intro hall
        exact (ih _).mpr fun s2 hs2 => hall s2 (List.mem_cons_of_mem s hs2)

/-- A test oracle whose per-unit stage fails on the Skills section only;
structure discovery and the holistic stage succeed. -/
def unitFailOracle : Oracle where
  sections := fun _ => .ok ("Skills, Experience")
  evalSection := fun s _ =>
    if s = "Skills" then .error () else .ok { analysis := "solid", score := "8" }
  overall := fun _ =>
    .ok { summary := "fine", strengths := "a", weaknesses := "b", recommendations := "c" }

/-- A test oracle where every call succeeds. -/
def allOkOracle : Oracle where
  sections := fun _ => .ok ("Skills, Experience")
  evalSection := fun _ _ => .ok { analysis := "solid", score := "8" }
  overall := fun _ =>
    .ok { summary := "fine", strengths := "a", weaknesses := "b", recommendations := "c" }

/-- A test oracle whose structure stage returns a duplicated section name. -/
def dupSectionsOracle : Oracle where
  sections := fun _ => .ok ("Skills, Skills, Experience")
  evalSection := fun _ _ => .ok { analysis := "solid", score := "8" }
  overall := fun _ =>
    .ok { summary := "fine", strengths := "a", weaknesses := "b", recommendations := "c" }

/-- A test oracle whose structure stage yields zero usable section names. -/
def emptySectionsOracle : Oracle where
  sections := fun _ => .ok ("")
  evalSection := fun _ _ => .ok { analysis := "solid", score := "8" }
  overall := fun _ =>
    .ok { summary := "fine", strengths := "a", weaknesses := "b", recommendations := "c" }

/-- Counterexample to claim C1 as stated: with a per-unit failure on
`"Skills"` alone, `forward` returns the empty dict even though the structure
stage succeeded, the evaluation of `"Experience"` would succeed, and the
holistic stage would succeed — it does not produce the other unit's
evaluation nor the holistic assessment, and an empty result is surfaced
although not every stage failed (the trace shows `"Experience"` and the
holistic stage were never even called). -/
theorem forward_empty_despite_successful_stages_cex :
    (ResumeAnalyzer.forward unitFailOracle ("doc")).1 = [] ∧
    (ResumeAnalyzer.forward unitFailOracle ("doc")).2 = [.stage1, .stage2 ("Skills")] ∧
    unitFailOracle.sections ("doc") = .ok ("Skills, Experience") ∧
    (∃ r, unitFailOracle.evalSection ("Experience") ("doc") = .ok r) ∧
    (∃ ov, unitFailOracle.overall ("doc") = .ok ov) :=
  ⟨by decide, by decide, rfl,
    ⟨{ analysis := "solid", score := "8" }, rfl⟩, ⟨_, rfl⟩⟩

/-- Claim C1 (amended): `forward` is all-or-nothing — a failure of any
oracle call at any stage (including a single per-unit call) aborts the whole
invocation and yields the empty dict; the result is non-empty exactly when
the structure call, every per-unit call for the discovered sections, and the
holistic call all succeed. -/
theorem forward_all_or_nothing :
    ∀ (o : Oracle) (t : String),
      (ResumeAnalyzer.forward o t).1 ≠ [] ↔
        ∃ secs, o.sections t = .ok secs ∧
          (∀ s ∈ splitSections secs, ∃ r, o.evalSection s t = .ok r) ∧
          ∃ ov, o.overall t = .ok ov := by
  intro o t
  cases h1 : o.sections t with
  | error e =>
    have hF : (ResumeAnalyzer.forward o t).1 = [] := by
      simp [ResumeAnalyzer.forward, h1]
    refine iff_of_false (by simp [hF]) ?_
    rintro ⟨secs2, hs2, _, _⟩
    exact Except.noConfusion hs2
  | ok secs =>
    cases h2 : (evalUnits o t (splitSections secs) []).1 with
    | error e =>
      have hF : (ResumeAnalyzer.forward o t).1 = [] := by
        simp [ResumeAnalyzer.forward, h1, h2]
      refine iff_of_false (by simp [hF]) ?_
      rintro ⟨secs2, hs2, hall, _⟩
      cases hs2
      obtain ⟨m, hm⟩ := (evalUnits_ok_iff o t (splitSections secs) []).mpr hall
      rw [h2] at hm
      exact Except.noConfusion hm
    | ok analyses =>
      cases h3 : o.overall t with
      | error e =>
        have hF : (ResumeAnalyzer.forward o t).1 = [] := by
          simp [ResumeAnalyzer.forward, h1, h2, h3]
        refine iff_of_false (by simp [hF]) ?_
        rintro ⟨secs2, hs2, hall, ov, hov⟩
        exact Except.noConfusion hov
      | ok ov =>
        have hT : (ResumeAnalyzer.forward o t).1 ≠ [] := by
          simp [ResumeAnalyzer.forward, h1, h2, h3]
        exact iff_of_true hT
          ⟨secs, rfl, (evalUnits_ok_iff o t (splitSections secs) []).mp ⟨analyses, h2⟩, ov, rfl⟩

/-- Witness for C1 (amended): when every oracle call succeeds, `forward`
returns a non-empty dict. -/
theorem forward_all_or_nothing_witness :
    (ResumeAnalyzer.forward allOkOracle ("doc")).1 ≠ [] :=
  (forward_all_or_nothing allOkOracle ("doc")).mpr
    ⟨"Skills, Experience", rfl, fun _ _ => ⟨{ analysis := "solid", score := "8" }, rfl⟩,
      ⟨_, rfl⟩⟩

/-- Counterexample to claim C2 as stated: a Stage1 reply of
`"Skills, Skills, Experience"` produces a `sections` sequence in which
`"Skills"` appears twice — later duplicates are NOT discarded. -/
theorem forward_units_duplicate_cex :
    (ResumeAnalyzer.forward dupSectionsOracle ("doc")).1.lookup ("sections") =
      some (.vlist ["Skills", "Skills", "Experience"]) ∧
    (["Skills", "Skills", "Experience"] : List String).count ("Skills") ≠ 1 := by
  decide

/-- Claim C2 (amended): the orchestrator's `sections` sequence is exactly the
comma-split, trimmed, empty-dropped Stage1 reply in order, with NO
de-duplication — duplicate names are kept; `"Skills, Skills, Experience"`
yields `["Skills","Skills","Experience"]`. -/
theorem forward_units_no_dedup :
    (∀ (o : Oracle) (t secs : String), o.sections t = .ok secs →
      (ResumeAnalyzer.forward o t).1 = [] ∨
      (ResumeAnalyzer.forward o t).1.lookup ("sections") =
        some (.vlist (splitSections secs))) ∧
    splitSections ("Skills, Skills, Experience") = ["Skills", "Skills", "Experience"] := by
  refine ⟨fun o t secs h1 => ?_, by decide⟩
  cases h2 : (evalUnits o t (splitSections secs) []).1 with
  | error e =>
    exact Or.inl (by simp [ResumeAnalyzer.forward, h1, h2])
  | ok analyses =>
    cases h3 : o.overall t with
    | error e =>
      exact Or.inl (by simp [ResumeAnalyzer.forward, h1, h2, h3])
    | ok ov =>
      refine Or.inr ?_
      simp [ResumeAnalyzer.forward, h1, h2, h3, List.lookup]

/-- Witness for C2 (amended), instantiated at the duplicate-sections
oracle. -/
theorem forward_units_no_dedup_witness :
    (ResumeAnalyzer.forward dupSectionsOracle ("doc")).1 = [] ∨
    (ResumeAnalyzer.forward dupSectionsOracle ("doc")).1.lookup ("sections") =
      some (.vlist (splitSections ("Skills, Skills, Experience"))) :=
  forward_units_no_dedup.1 dupSectionsOracle ("doc") ("Skills, Skills, Experience") rfl

/-- Claim C7: a document whose whitespace-split word count is below 50 is
rejected by the validation check before the analyzer is even constructed:
the run rejects the input and the oracle-call trace is empty. -/
theorem short_document_no_oracle_calls :
    ∀ (o : Oracle) (t : String), (pyWordsAux t.data []).length < 50 →
      ResumeAnalyzer.mainRun o t = (none, []) := by
  intro o t h
  unfold ResumeAnalyzer.mainRun
  simp [h]

/-- Witness for C7: a two-word document is rejected with zero oracle calls,
even against an oracle that would answer every call. -/
theorem short_document_no_oracle_calls_witness :
    ResumeAnalyzer.mainRun allOkOracle ("too short") = (none, []) :=
  short_document_no_oracle_calls allOkOracle ("too short") (by decide)

/-- Claim C8: when Stage1 yields zero usable unit names, `forward` performs
no per-unit evaluation call, still performs the holistic call (trace is
exactly structure stage then holistic stage), and — when the holistic call
succeeds — returns a dict with an empty `sections` sequence and empty
`section_analyses`, not an error. -/
theorem zero_units_skip_stage2 :
    ∀ (o : Oracle) (t secs : String), o.sections t = .ok secs →
      splitSections secs = [] →
      (ResumeAnalyzer.forward o t).2 = [.stage1, .stage3] ∧
      ∀ ov, o.overall t = .ok ov →
        (ResumeAnalyzer.forward o t).1 =
          [("sections", .vlist []), ("section_analyses", .vanalyses []),
           ("overall_summary", .vstr ov.summary),
           ("strengths", .vlist (ResumeAnalyzer.format_list ov.strengths)),
           ("weaknesses", .vlist (ResumeAnalyzer.format_list ov.weaknesses)),
           ("recommendations", .vlist (ResumeAnalyzer.format_list ov.recommendations))] := by
  intro o t secs h1 h2
  constructor
  · cases h3 : o.overall t <;>
      simp [ResumeAnalyzer.forward, h1, h2, h3, evalUnits]
  · intro ov h3
    simp [ResumeAnalyzer.forward, h1, h2, h3, evalUnits]

/-- Witness for C8 at an oracle returning an empty Stage1 reply. -/
theorem zero_units_skip_stage2_witness :
    (ResumeAnalyzer.forward emptySectionsOracle ("doc")).2 = [.stage1, .stage3] :=
  (zero_units_skip_stage2 emptySectionsOracle ("doc") ("") rfl (by decide)).1

/-- Claim C9: both `forward` implementations are all-or-nothing in shape —
for every input and oracle the returned dict is either empty or carries
exactly the full declared key list, never a strict subset. -/
theorem forward_key_shape :
    ∀ (o : Oracle) (t : String) (mo : MovieOracle) (r : String),
      ((ResumeAnalyzer.forward o t).1 = [] ∨
        (ResumeAnalyzer.forward o t).1.map Prod.fst =
          ["sections", "section_analyses", "overall_summary",
           "strengths", "weaknesses", "recommendations"]) ∧
      (AdvancedMovieReviewer.forward mo r = [] ∨
        (AdvancedMovieReviewer.forward mo r).map Prod.fst =
          ["plot_summary", "character_analysis", "technical_review", "cultural_impact",
           "rating", "genres", "similar_movies", "recommendations"]) := by
  intro o t mo r
  constructor
  · cases h1 : o.sections t with
    | error e => exact Or.inl (by simp [ResumeAnalyzer.forward, h1])
    | ok secs =>
      cases h2 : (evalUnits o t (splitSections secs) []).1 with
      | error e => exact Or.inl (by simp [ResumeAnalyzer.forward, h1, h2])
      | ok analyses =>
        cases h3 : o.overall t with
        | error e => exact Or.inl (by simp [ResumeAnalyzer.forward, h1, h2, h3])
        | ok ov => exact Or.inr (by simp [ResumeAnalyzer.forward, h1, h2, h3])
  · cases h1 : mo.analysis r with
    | error e => exact Or.inl (by simp [AdvancedMovieReviewer.forward, h1])
    | ok a =>
      cases h2 : mo.genre_classifier r with
      | error e => exact Or.inl (by simp [AdvancedMovieReviewer.forward, h1, h2])
      | ok g =>
        cases h3 : mo.recommender r with
        | error e => exact Or.inl (by simp [AdvancedMovieReviewer.forward, h1, h2, h3])
        | ok comps => exact Or.inr (by simp [AdvancedMovieReviewer.forward, h1, h2, h3])

/-! ### Lemmas: decimal digit strings -/

lemma digitsVal_go (l : List Char) :
    ∀ a : Nat, l.foldl (fun acc c => 10 * acc + digitVal c) a =
      a * 10 ^ l.length + l.foldl (fun acc c => 10 * acc + digitVal c) 0 := by
  induction l with
  | nil => intro a; simp
  | cons c rest ih =>
    intro a
    rw [List.foldl_cons, List.foldl_cons, ih (10 * a + digitVal c),
      ih (10 * 0 + digitVal c), List.length_cons]
    ring

lemma digitsVal_cons (c : Char) (l : List Char) :
    digitsVal (c :: l) = digitVal c * 10 ^ l.length + digitsVal l := by
  unfold digitsVal
  rw [List.foldl_cons, digitsVal_go]
  ring

lemma digitsVal_append (l1 l2 : List Char) :
    digitsVal (l1 ++ l2) = digitsVal l1 * 10 ^ l2.length + digitsVal l2 := by
  unfold digitsVal
  rw [List.foldl_append, digitsVal_go]

lemma digitVal_decDigit {d : Nat} (h : d < 10) : digitVal (decDigit d) = d := by
  interval_cases d <;> decide

lemma isDigit_decDigit {d : Nat} (h : d < 10) : (decDigit d).isDigit = true := by
  interval_cases d <;> decide

lemma natToDecAux_val : ∀ fuel n : Nat, n ≤ fuel → digitsVal (natToDecAux fuel n) = n := by
  intro fuel
  induction fuel with
  | zero =>
    intro n hn
    interval_cases n
    decide
  | succ f ih =>
    intro n hn
    by_cases h0 : n = 0
    · subst h0; simp [natToDecAux, digitsVal]
    · have hlt : n / 10 ≤ f := by
        have := Nat.div_lt_self (Nat.pos_of_ne_zero h0) (by norm_num : 1 < 10)
        omega
      simp only [natToDecAux, h0, if_false]
      rw [digitsVal_append, ih (n / 10) hlt]
      have h1 : digitsVal [decDigit (n % 10)] = n % 10 := by
        rw [show [decDigit (n % 10)] = decDigit (n % 10) :: [] from rfl, digitsVal_cons]
        simp [digitVal_decDigit (Nat.mod_lt n (by norm_num)), digitsVal]
      rw [h1]
      simp only [List.length_singleton, pow_one]
      omega

lemma natToDec_val (n : Nat) : digitsVal (natToDec n) = n := by
  by_cases h0 : n = 0
  · subst h0; decide
  · unfold natToDec
    rw [if_neg h0]
    exact natToDecAux_val n n le_rfl

lemma natToDecAux_digits :
    ∀ fuel n : Nat, ∀ c ∈ natToDecAux fuel n, c.isDigit = true := by
  intro fuel
  induction fuel with
  | zero => intro n c hc; cases hc
  | succ f ih =>
    intro n c hc
    by_cases h0 : n = 0
    · subst h0; cases hc
    · simp only [natToDecAux, h0, if_false] at hc
      rcases List.mem_append.mp hc with h | h
      · exact ih (n / 10) c h
      · rcases List.mem_singleton.mp h with rfl
        exact isDigit_decDigit (Nat.mod_lt n (by norm_num))

lemma natToDec_digits (n : Nat) : ∀ c ∈ natToDec n, c.isDigit = true := by
  intro c hc
  unfold natToDec at hc
  by_cases h0 : n = 0
  · rw [if_pos h0] at hc
    rcases List.mem_singleton.mp hc with rfl
    decide
  · rw [if_neg h0] at hc
    exact natToDecAux_digits n n c hc

lemma digitsVal_replicate_zero (m : Nat) : digitsVal (List.replicate m '0') = 0 := by
  induction m with
  | zero => decide
  | succ k ih =>
    rw [List.replicate_succ, digitsVal_cons, ih]
    have h0 : digitVal '0' = 0 := by decide
    simp [h0]

lemma digitsVal_padZeros (k : Nat) (l : List Char) :
    digitsVal (padZeros k l) = digitsVal l := by
  unfold padZeros
  rw [digitsVal_append, digitsVal_replicate_zero]
  simp

lemma padZeros_digits {l : List Char} (hl : ∀ c ∈ l, c.isDigit = true) (k : Nat) :
    ∀ c ∈ padZeros k l, c.isDigit = true := by
  intro c hc
  unfold padZeros at hc
  rcases List.mem_append.mp hc with h | h
  · rcases List.eq_of_mem_replicate h with rfl
    decide
  · exact hl c h

lemma padZeros_length (k : Nat) (l : List Char) :
    (padZeros k l).length = max k l.length := by
  unfold padZeros
  simp [List.length_append, List.length_replicate]
  omega

/-! ### Lemmas: parsing the printed decimal back -/

lemma takeWhile_of_all {p : Char → Bool} :
    ∀ {l : List Char}, (∀ c ∈ l, p c = true) → l.takeWhile p = l := by
  intro l
  induction l with
  | nil => intro _; rfl
  | cons c rest ih =>
    intro h
    rw [List.takeWhile_cons, h c (List.mem_cons_self c rest)]
    simp [ih fun x hx => h x (List.mem_cons_of_mem c hx)]

lemma takeWhile_append_of_neg {p : Char → Bool} {l1 l2 : List Char} {x : Char}
    (h1 : ∀ c ∈ l1, p c = true) (hx : p x = false) :
    (l1 ++ x :: l2).takeWhile p = l1 := by
  induction l1 with
  | nil => simp [List.takeWhile_cons, hx]
  | cons c rest ih =>
    rw [List.cons_append, List.takeWhile_cons, h1 c (List.mem_cons_self c rest)]
    simp [ih fun y hy => h1 y (List.mem_cons_of_mem c hy)]

lemma dropWhile_append_of_neg {p : Char → Bool} {l1 l2 : List Char} {x : Char}
    (h1 : ∀ c ∈ l1, p c = true) (hx : p x = false) :
    (l1 ++ x :: l2).dropWhile p = x :: l2 := by
  induction l1 with
  | nil => simp [List.dropWhile_cons, hx]
  | cons c rest ih =>
    rw [List.cons_append, List.dropWhile_cons]
    simp only [h1 c (List.mem_cons_self c rest), if_true]
    exact ih fun y hy => h1 y (List.mem_cons_of_mem c hy)

lemma firstNumeral_decimal {ip fp : List Char}
    (hip : ∀ c ∈ ip, c.isDigit = true) (hfp : ∀ c ∈ fp, c.isDigit = true)
    (hne : ip ≠ []) :
    firstNumeral (ip ++ '.' :: fp) = some (ip ++ '.' :: fp) := by
  have hdot : ('.').isDigit = false := by decide
  have hmatch : matchNumeral (ip ++ '.' :: fp) = ip ++ '.' :: fp := by
    unfold matchNumeral
    rw [dropWhile_append_of_neg hip hdot]
    simp only [takeWhile_append_of_neg hip hdot, takeWhile_of_all hfp]
  cases ip with
  | nil => exact absurd rfl hne
  | cons d ip2 =>
    have hd : d.isDigit = true := hip d (List.mem_cons_self d ip2)
    rw [List.cons_append] at hmatch
    simp only [List.cons_append, firstNumeral, hd, if_true]
    exact congrArg some hmatch

lemma numToRat_decimal {ip fp : List Char}
    (hip : ∀ c ∈ ip, c.isDigit = true) :
    numToRat (ip ++ '.' :: fp) =
      mkRat (digitsVal ip * 10 ^ fp.length + digitsVal fp) (10 ^ fp.length) := by
  have hdot : ('.').isDigit = false := by decide
  unfold numToRat
  rw [dropWhile_append_of_neg hip hdot]
  simp only [takeWhile_append_of_neg hip hdot]

/-- A divisor of a power of ten divides the power of ten with exponent equal
to itself (its prime factors are 2 and 5, each appearing fewer times than
the number's own size). -/
lemma dvd_ten_pow_self :
    ∀ den : Nat, ∀ d : Nat, den ∣ 10 ^ d → den ∣ 10 ^ den := by
  intro den
  induction den using Nat.strong_induction_on with
  | _ den ih =>
    intro d h
    rcases Nat.eq_zero_or_pos den with h0 | hpos
    · subst h0
      have h10 : (10 : Nat) ^ d ≠ 0 := Nat.pos_iff_ne_zero.mp (Nat.pos_pow_of_pos d (by norm_num))
      exact absurd (Nat.eq_zero_of_zero_dvd h) h10
    by_cases h1 : den = 1
    · subst h1; exact one_dvd _
    obtain ⟨p, hp, hpd⟩ := Nat.exists_prime_and_dvd h1
    have hp10 : p ∣ 10 := hp.dvd_of_dvd_pow (hpd.trans h)
    have hple : p ≤ 10 := Nat.le_of_dvd (by norm_num) hp10
    have hp2 := hp.two_le
    have hp25 : p = 2 ∨ p = 5 := by
      interval_cases p <;> revert hp10 <;> revert hp <;> decide
    obtain ⟨m, hm⟩ := hpd
    have hm0 : 0 < m := by
      rcases Nat.eq_zero_or_pos m with rfl | hm0
      · rw [Nat.mul_zero] at hm; omega
      · exact hm0
    have hmlt : m < den := by
      rw [hm]
      calc m = 1 * m := (Nat.one_mul m).symm
      _ < p * m := by
        have hp1 : 1 < p := by omega
        exact Nat.mul_lt_mul_of_lt_of_le hp1 le_rfl hm0
    have hmd : m ∣ 10 ^ d := (Dvd.intro_left p hm.symm).trans h
    obtain ⟨c, hc⟩ := ih m hmlt d hmd
    have hsucc : m + 1 ≤ den := hmlt
    rcases hp25 with rfl | rfl
    · have hstep : den ∣ 10 ^ (m + 1) := by
        refine ⟨5 * c, ?_⟩
        rw [pow_succ, hc, hm]
        ring
      exact hstep.trans (pow_dvd_pow 10 hsucc)
    · have hstep : den ∣ 10 ^ (m + 1) := by
        refine ⟨2 * c, ?_⟩
        rw [pow_succ, hc, hm]
        ring
      exact hstep.trans (pow_dvd_pow 10 hsucc)

/-- The numerator printed by `floatStr` reconstructs `q`: for a nonnegative
finite-decimal rational, `q.num.toNat * (10 ^ q.den / q.den)` over
`10 ^ q.den` is exactly `q`. -/
lemma mkRat_floatStr_num {q : ℚ} (h0 : 0 ≤ q) (hdvd : q.den ∣ 10 ^ q.den) :
    mkRat (q.num.toNat * (10 ^ q.den / q.den) : ℕ) (10 ^ q.den) = q := by
  have hden0 : (q.den : ℚ) ≠ 0 := by
    exact_mod_cast q.den_nz
  have hcNat : q.den * (10 ^ q.den / q.den) = 10 ^ q.den := Nat.mul_div_cancel' hdvd
  have hX : ((10 ^ q.den : ℕ) : ℚ) ≠ 0 := by
    exact_mod_cast (pow_pos (by norm_num : (0 : ℕ) < 10) q.den).ne'
  have h1 : (q.num.toNat * (10 ^ q.den / q.den) : ℕ) * q.den = q.num.toNat * 10 ^ q.den := by
    rw [Nat.mul_assoc, Nat.mul_comm (10 ^ q.den / q.den) q.den, hcNat]
  have h2 : ((q.num.toNat * (10 ^ q.den / q.den) : ℕ) : ℚ) * (q.den : ℚ) =
      ((q.num.toNat : ℕ) : ℚ) * ((10 ^ q.den : ℕ) : ℚ) := by
    exact_mod_cast congrArg (fun x : ℕ => (x : ℚ)) h1
  have h3 : ((q.num.toNat : ℕ) : ℚ) = (q.num : ℚ) := by
    exact_mod_cast Int.toNat_of_nonneg (Rat.num_nonneg.mpr h0)
  have h4 : (q.num : ℚ) = q * (q.den : ℚ) :=
    ((eq_div_iff hden0).mp (Rat.num_div_den q).symm).symm
  have h5 : ((q.num.toNat * (10 ^ q.den / q.den) : ℕ) : ℚ) * (q.den : ℚ) =
      q * ((10 ^ q.den : ℕ) : ℚ) * (q.den : ℚ) := by
    rw [h2, h3, h4]
    ring
  have hq : ((q.num.toNat * (10 ^ q.den / q.den) : ℕ) : ℚ) = q * ((10 ^ q.den : ℕ) : ℚ) :=
    mul_right_cancel₀ hden0 h5
  rw [Rat.mkRat_eq_divInt, Rat.divInt_eq_div, Int.cast_natCast, Int.cast_natCast, hq]
  exact mul_div_cancel_right₀ q hX

/-- Printing a nonnegative finite-decimal rational with `floatStr` and
re-parsing it with the regex model recovers the rational exactly. -/
lemma floatStr_roundTrip {q : ℚ} (h0 : 0 ≤ q) (hdvd : q.den ∣ 10 ^ q.den) :
    firstNumeral (floatStr q).data = some ((floatStr q).data) ∧
    numToRat ((floatStr q).data) = q := by
  set a := q.num.toNat * (10 ^ q.den / q.den) with ha
  set ds := padZeros (q.den + 1) (natToDec a) with hds
  set n := ds.length - q.den with hn
  have hdata : (floatStr q).data = ds.take n ++ '.' :: ds.drop n := rfl
  have hL : q.den + 1 ≤ ds.length := by
    rw [hds, padZeros_length]
    omega
  have hdigits : ∀ c ∈ ds, c.isDigit = true := by
    rw [hds]
    exact padZeros_digits (natToDec_digits a) _
  have hip : ∀ c ∈ ds.take n, c.isDigit = true :=
    fun c hc => hdigits c (List.take_subset n ds hc)
  have hfp : ∀ c ∈ ds.drop n, c.isDigit = true :=
    fun c hc => hdigits c (List.drop_subset n ds hc)
  have hiplen : (ds.take n).length = n := by
    rw [List.length_take]
    omega
  have hipne : ds.take n ≠ [] := by
    intro hnil
    have := congrArg List.length hnil
    rw [hiplen] at this
    simp at this
    omega
  have hfplen : (ds.drop n).length = q.den := by
    rw [List.length_drop]
    omega
  refine ⟨by rw [hdata]; exact firstNumeral_decimal hip hfp hipne, ?_⟩
  rw [hdata, numToRat_decimal hip, hfplen]
  have hval : digitsVal (ds.take n) * 10 ^ q.den + digitsVal (ds.drop n) = a := by
    have happ := digitsVal_append (ds.take n) (ds.drop n)
    rw [List.take_append_drop, hfplen] at happ
    rw [← happ, hds, digitsVal_padZeros, natToDec_val]
  have hcast : mkRat (↑(digitsVal (ds.take n)) * 10 ^ q.den + ↑(digitsVal (ds.drop n)))
      (10 ^ q.den) = mkRat (a : ℕ) (10 ^ q.den) := by
    congr 1
    exact_mod_cast hval
  rw [hcast, ha]
  exact mkRat_floatStr_num h0 hdvd

lemma numToRat_shape (m : List Char) : ∃ a k : Nat, numToRat m = mkRat a (10 ^ k) := by
  unfold numToRat
  split
  · rename_i fp heq
    refine ⟨digitsVal (m.takeWhile Char.isDigit) * 10 ^ fp.length + digitsVal fp,
      fp.length, ?_⟩
    congr 1
    push_cast
    ring
  · refine ⟨digitsVal (m.takeWhile Char.isDigit), 0, ?_⟩
    rw [pow_zero, Rat.mkRat_one]
    norm_cast

lemma parse_score_shape (s : String) :
    ∃ a k : Nat, ResumeAnalyzer.parse_score s = mkRat a (10 ^ k) := by
  unfold ResumeAnalyzer.parse_score
  cases hf : firstNumeral s.data with
  | none =>
    refine ⟨5, 0, ?_⟩
    rw [pow_zero, Rat.mkRat_one]
    norm_num
  | some m =>
    dsimp only
    obtain ⟨a, k, hak⟩ := numToRat_shape m
    rcases le_total (numToRat m) 1 with h1 | h1
    · refine ⟨1, 0, ?_⟩
      rw [sup_eq_left.mpr h1, pow_zero, Rat.mkRat_one]
      norm_num
    · rcases le_total (numToRat m) 10 with h2 | h2
      · refine ⟨a, k, ?_⟩
        rw [sup_eq_right.mpr h1, inf_eq_right.mpr h2, hak]
      · refine ⟨10, 0, ?_⟩
        rw [sup_eq_right.mpr h1, inf_eq_left.mpr h2, pow_zero, Rat.mkRat_one]
        norm_num

lemma den_dvd_ten_pow_den {q : ℚ} (a k : Nat) (h : q = mkRat a (10 ^ k)) :
    q.den ∣ 10 ^ q.den := by
  have h1 : (q.den : ℤ) ∣ ((10 ^ k : ℕ) : ℤ) := by
    rw [h, Rat.mkRat_eq_divInt]
    exact Rat.den_dvd _ _
  exact dvd_ten_pow_self q.den k (by exact_mod_cast h1)

/-- Claim C6: `extractScore` (the code's `_parse_score`) is idempotent under
re-parsing its own stringified output: for every text `t`,
`parse_score (str (parse_score t))` equals `parse_score t`, where `str` is
the decimal printing of the (finite-decimal) score value. -/
theorem parse_score_idempotent :
    ∀ t : String,
      ResumeAnalyzer.parse_score (floatStr (ResumeAnalyzer.parse_score t)) =
        ResumeAnalyzer.parse_score t := by
  intro t
  set q := ResumeAnalyzer.parse_score t with hq
  have h1 : 1 ≤ q := parse_score_ge_one t
  have h2 : q ≤ 10 := parse_score_le_ten t
  have h0 : 0 ≤ q := le_trans (by norm_num) h1
  obtain ⟨a, k, hak⟩ := parse_score_shape t
  have hdvd : q.den ∣ 10 ^ q.den := den_dvd_ten_pow_den a k hak
  obtain ⟨hfn, hnum⟩ := floatStr_roundTrip h0 hdvd
  unfold ResumeAnalyzer.parse_score
  simp only [hfn, hnum]
  rw [sup_eq_right.mpr h1, inf_eq_right.mpr h2]
